import Mathlib

/-!
Verification of `dnsviz/resolver.py`, the resolution core of a DNS stub
resolver: a shallow embedding of the answer extractor (`DNSAnswer.__init__`),
the resolver configuration (`Resolver.__init__`), and the batch scheduler
(`Resolver.query_multiple`), with theorems settling the specification's
claims about them.

Conventions of the embedding:
* DNS names, record types, record classes and server addresses are abstracted
  as natural numbers; a question is the tuple `(qname, rdtype, rdclass)` used
  as the per-question key, exactly as in the source.
* Wall-clock instants and durations are integers.  The source reads Python
  floats from `time.time()`, but the scheduler only adds, subtracts and
  compares them (and takes `min`/`max`), so any linearly ordered abelian
  group models them; no claim depends on floating-point rounding or on
  fractional values.
* The source is Python 2: `cycle_num >= None` is `True` (`None` compares
  below every integer), and `start + None` raises `TypeError`.  Runtime
  failures the source can actually raise are modelled by `Except PyError`.
* The external query-execution collaborator (`query.ExecutableDNSQuery`) and
  the wall clock are modelled as per-round oracles supplied to the scheduler;
  the scheduler state never escapes to them, matching the source, where the
  collaborator only fills in `q.responses`.
-/

abbrev Name := Nat
abbrev RdType := Nat
abbrev RdClass := Nat
abbrev Server := Nat

/-- A question tuple `(qname, rdtype, rdclass)` (`query_tuple` in the source). -/
abbrev Question := Name × RdType × RdClass

/-- The numeric value of `dns.rdatatype.CNAME`. -/
def cnameType : RdType := 5

/-- The numeric value of `dns.rcode.NXDOMAIN`. -/
def nxdomainRcode : Nat := 3

/-- One RRset of a response's answer section, as used by the extractor: its
owner name, its record type, and the target of its first record
(`rrset[0].target`, meaningful for CNAME RRsets; an RRset of a parsed message
always carries at least one record, so the first record always exists). -/
structure RRset where
  name : Name
  rdtype : RdType
  target : Name
deriving DecidableEq

/-- A response message as the extractor sees it: `response.rcode()` and the
answer section.  `find_rrset` is called with `dns.rdataclass.IN` at both call
sites in the source, so the record class of an RRset is not modelled. -/
structure Message where
  rcode : Nat
  answer : List RRset
deriving DecidableEq

/-- `response.find_rrset(response.answer, n, dns.rdataclass.IN, t)`,
returning `none` where the source raises `KeyError`. -/
def findRrset (ans : List RRset) (n : Name) (t : RdType) : Option RRset :=
  ans.find? fun r => r.name == n && r.rdtype == t

/-- `MAX_CNAME_REDIRECTION` (line 31 of the source). -/
def MAX_CNAME_REDIRECTION : Nat := 20

/-- The CNAME-chasing loop of `DNSAnswer.__init__` (lines 59-71): look for an
RRset of the requested type at the current name; on success stop (the source
sets `i = MAX_CNAME_REDIRECTION` to leave the loop); otherwise follow a CNAME
RRset at the current name, or stop with no result if there is none.  Returns
the RRset found (if any) together with the number of executed loop
iterations.  `fuel` is the number of iterations the `i < MAX_CNAME_REDIRECTION`
guard still allows, so the body runs at most `fuel` more times. -/
def chaseRun (ans : List RRset) (rdtype : RdType) : Name → Nat → Option RRset × Nat
  | _, 0 => (none, 0)
  | q, fuel + 1 =>
    match findRrset ans q rdtype with
    | some r => (some r, 1)
    | none =>
      match findRrset ans q cnameType with
      | some c =>
        let p := chaseRun ans rdtype c.target fuel
        (p.1, p.2 + 1)
      | none => (none, 1)

/-- The value of `self.rrset` established by the loop of
`DNSAnswer.__init__`, starting from the requested name with the full
iteration budget. -/
def cnameChase (ans : List RRset) (rdtype : RdType) (qname : Name) : Option RRset :=
  (chaseRun ans rdtype qname MAX_CNAME_REDIRECTION).1

/-- The two negative-answer exceptions `DNSAnswer.__init__` can raise
(`dns.resolver.NXDOMAIN` from `_handle_nxdomain`, `dns.resolver.NoAnswer`
from `_handle_noanswer`). -/
inductive DNSError where
  | nxdomain
  | noAnswer
deriving DecidableEq

/-- The state a successfully constructed `DNSAnswer` (or
`DNSAnswerNoAnswerAllowed`) carries: the full response message, the server
that supplied it, and the RRset found by the CNAME-chasing loop (`none` only
in the no-answer-tolerant variant). -/
structure DNSAns where
  response : Message
  server : Server
  rrset : Option RRset
deriving DecidableEq

/-- `DNSAnswer.__init__` (lines 51-81): raise `NXDOMAIN` when the response
code is NXDOMAIN (checked before any CNAME chasing), then run the
CNAME-chasing loop, then raise `NoAnswer` when no RRset was found — unless
`allowNoAnswer` selects the `DNSAnswerNoAnswerAllowed` variant, whose
`_handle_noanswer` does nothing (lines 83-88). -/
def mkDNSAnswer (allowNoAnswer : Bool) (qname : Name) (rdtype : RdType)
    (response : Message) (server : Server) : Except DNSError DNSAns :=
  if response.rcode = nxdomainRcode then .error .nxdomain
  else
    match cnameChase response.answer rdtype qname with
    | some r => .ok ⟨response, server, some r⟩
    | none =>
      if allowNoAnswer then .ok ⟨response, server, none⟩
      else .error .noAnswer

/-- The static configuration a `Resolver` instance holds (lines 97-102). -/
structure Config where
  servers : List Server
  timeout : ℤ
  maxAttempts : Option Nat
  lifetime : Option ℤ
  shuffle : Bool

/-- `Resolver.__init__` (lines 93-102): raises `ValueError` (modelled as
`.error ()`) when both `lifetime` and `max_attempts` are `None`, otherwise
stores the configuration unchanged. -/
def mkResolver (servers : List Server) (timeout : ℤ) (maxAttempts : Option Nat)
    (lifetime : Option ℤ) (shuffle : Bool) : Except Unit Config :=
  if lifetime = none ∧ maxAttempts = none then .error ()
  else .ok ⟨servers, timeout, maxAttempts, lifetime, shuffle⟩

/-! ### Lemmas about the CNAME-chasing loop -/

theorem findRrset_eq_some {ans : List RRset} {n : Name} {t : RdType} {r : RRset}
    (h : findRrset ans n t = some r) : r.name = n ∧ r.rdtype = t := by
  have hp := List.find?_some h
  simp only [Bool.and_eq_true, beq_iff_eq] at hp
  exact hp

theorem chaseRun_steps_le (ans : List RRset) (t : RdType) :
    ∀ (fuel : Nat) (q : Name), (chaseRun ans t q fuel).2 ≤ fuel := by
  intro fuel
  induction fuel with
  | zero => intro q; simp [chaseRun]
  | succ n ih =>
    intro q
    simp only [chaseRun]
    cases h1 : findRrset ans q t with
    | some r => simp
    | none =>
      cases h2 : findRrset ans q cnameType with
      | some c =>
        simpa using Nat.succ_le_succ (ih c.target)
      | none => simp

/-- The chain of CNAME redirections the extractor's loop can follow in answer
section `ans` when chasing a record of type `rdtype`: each step moves from a
name holding no RRset of the requested type to the target of that name's
CNAME RRset. -/
inductive CnameChain (ans : List RRset) (rdtype : RdType) : Name → Name → Prop where
  | refl (q : Name) : CnameChain ans rdtype q q
  | step (q qf : Name) (c : RRset) :
      findRrset ans q rdtype = none →
      findRrset ans q cnameType = some c →
      CnameChain ans rdtype c.target qf →
      CnameChain ans rdtype q qf

theorem chaseRun_some_chain {ans : List RRset} {t : RdType} :
    ∀ {fuel : Nat} {q : Name} {r : RRset}, (chaseRun ans t q fuel).1 = some r →
      CnameChain ans t q r.name ∧ findRrset ans r.name t = some r := by
  intro fuel
  induction fuel with
  | zero => intro q r h; simp [chaseRun] at h
  | succ n ih =>
    intro q r h
    simp only [chaseRun] at h
    cases h1 : findRrset ans q t with
    | some r0 =>
      rw [h1] at h
      simp only [Option.some.injEq] at h
      subst h
      obtain ⟨hn, _⟩ := findRrset_eq_some h1
      rw [hn]
      exact ⟨CnameChain.refl q, h1⟩
    | none =>
      rw [h1] at h
      cases h2 : findRrset ans q cnameType with
      | some c =>
        rw [h2] at h
        simp only at h
        obtain ⟨hc, hf⟩ := ih h
        exact ⟨CnameChain.step q r.name c h1 h2 hc, hf⟩
      | none => rw [h2] at h; simp at h

/-! ### Claims about the answer extractor and the constructor -/

/-- Claim C3: for every response message and requested name/type, the
extractor's CNAME-chain loop performs at most `MAX_CNAME_REDIRECTION = 20`
iterations — so it terminates even when the CNAME records form a cycle or an
unbounded chain — and exceeding the bound without finding an RRset of the
requested type yields the same `NoAnswer` outcome as an ordinary missing
RRset (compared here with the extractor run on a message with an empty answer
section), never a distinct error kind, infinite loop, or crash. -/
theorem c3_cname_loop_bounded (ans : List RRset) (rdtype : RdType) (qname : Name)
    (server : Server) :
    (chaseRun ans rdtype qname MAX_CNAME_REDIRECTION).2 ≤ MAX_CNAME_REDIRECTION ∧
    ((chaseRun ans rdtype qname MAX_CNAME_REDIRECTION).1 = none →
      mkDNSAnswer false qname rdtype ⟨0, ans⟩ server = .error .noAnswer ∧
      mkDNSAnswer false qname rdtype ⟨0, []⟩ server = .error .noAnswer) := by
  refine ⟨chaseRun_steps_le ans rdtype _ qname, fun h => ⟨?_, ?_⟩⟩
  · have hc : cnameChase ans rdtype qname = none := h
    simp [mkDNSAnswer, hc, nxdomainRcode]
  · rfl

/-- Two CNAME RRsets forming a cycle, for the witness of claim C3. -/
def ansCycC3 : List RRset := [⟨40, cnameType, 41⟩, ⟨41, cnameType, 40⟩]

/-- Witness for claim C3 at a concrete two-element CNAME cycle. -/
theorem c3_cname_loop_bounded_witness :
    (chaseRun ansCycC3 1 40 MAX_CNAME_REDIRECTION).2 ≤ MAX_CNAME_REDIRECTION ∧
    mkDNSAnswer false 40 1 ⟨0, ansCycC3⟩ 7 = .error .noAnswer ∧
    mkDNSAnswer false 40 1 ⟨0, []⟩ 7 = .error .noAnswer := by
  have h := c3_cname_loop_bounded ansCycC3 1 40 7
  exact ⟨h.1, (h.2 (by decide)).1, (h.2 (by decide)).2⟩

/-- Claim C8: when extraction succeeds and an RRset was found, that RRset is
attached to the final name of a CNAME chain rooted at the requested name (a
chain whose every redirection step was taken only because the requested type
was absent at the intermediate name), and it is an RRset of the requested
type found at that final name. -/
theorem c8_rrset_at_final_name (allowNoAnswer : Bool) (qname : Name)
    (rdtype : RdType) (msg : Message) (server : Server) (a : DNSAns) (r : RRset)
    (h : mkDNSAnswer allowNoAnswer qname rdtype msg server = .ok a)
    (hr : a.rrset = some r) :
    CnameChain msg.answer rdtype qname r.name ∧
    findRrset msg.answer r.name rdtype = some r ∧ r.rdtype = rdtype := by
  unfold mkDNSAnswer at h
  split at h
  · exact absurd h (by simp)
  · split at h
    case _ r0 heq =>
      simp only [Except.ok.injEq] at h
      subst h
      have hr0 : r0 = r := by simpa using hr
      rw [hr0] at heq
      have hchain := chaseRun_some_chain
        (show (chaseRun msg.answer rdtype qname MAX_CNAME_REDIRECTION).1 = some r from heq)
      exact ⟨hchain.1, hchain.2, (findRrset_eq_some hchain.2).2⟩
    case _ heq =>
      split at h
      · simp only [Except.ok.injEq] at h
        subst h
        simp at hr
      · exact absurd h (by simp)

/-- The answer section CNAME → CNAME → A of the witness for claim C8. -/
def ansC8 : List RRset := [⟨10, cnameType, 11⟩, ⟨11, cnameType, 12⟩, ⟨12, 1, 0⟩]

/-- Witness for claim C8 on the spec's scenario: a question for name 10 of
type 1 (A) whose answer holds CNAME 10→11, CNAME 11→12, and an A RRset at 12;
the extractor's RRset sits at the chain's final name 12. -/
theorem c8_rrset_at_final_name_witness :
    CnameChain ansC8 1 10 12 ∧ findRrset ansC8 12 1 = some ⟨12, 1, 0⟩ := by
  have h := c8_rrset_at_final_name false 10 1 ⟨0, ansC8⟩ 9
      ⟨⟨0, ansC8⟩, 9, some ⟨12, 1, 0⟩⟩ ⟨12, 1, 0⟩ rfl rfl
  exact ⟨h.1, h.2.1⟩

/-- Claim C9: `Resolver` construction fails with a configuration error
exactly when `lifetime` and `max_attempts` are both `None`; with at least one
of them set a configuration object exists, and only a successfully
constructed configuration can be handed to the scheduler. -/
theorem c9_constructor_guard (servers : List Server) (timeout : ℤ)
    (ma : Option Nat) (lt : Option ℤ) (shuf : Bool) :
    (∃ cfg, mkResolver servers timeout ma lt shuf = .ok cfg) ↔
      ¬(lt = none ∧ ma = none) := by
  by_cases h : lt = none ∧ ma = none <;> simp [mkResolver, h]

/-! ### The batch scheduler (`Resolver.query_multiple`, lines 130-198)

The scheduler is embedded as a round loop over an explicit state.  Wall-clock
readings and the external query-execution collaborator are oracles: for round
`k`, `envs k` supplies the `time.time()` value read by the loop guard (line
153), the `time.time()` value read as `now` (line 154), and the response
record produced for each dispatched `(question, server)` query. -/

/-- Python runtime failures reachable inside `query_multiple`:
`typeError` for `(start + self._lifetime)` when `lifetime` is `None` (line
170, a Python 2 `TypeError`), `zeroDivision` for `divmod(attempts, 0)` when
the server list is empty (line 162), `attributeError` for reading a field of
a `None` message (line 183).  `fuelOut` is an artifact of the bounded
recursion used for the inner `while` loop and is provably unreachable
(`scheduleOne_no_fuelOut`). -/
inductive PyError where
  | typeError
  | zeroDivision
  | attributeError
  | fuelOut
deriving DecidableEq

/-- The error classification a response record carries
(`query.RESPONSE_ERROR_TIMEOUT`, `query.RESPONSE_ERROR_NETWORK_ERROR`, or any
other class, per the three-way distinction of the interface). -/
inductive RespError where
  | timeout
  | networkError
  | other
deriving DecidableEq

/-- The response record the query-execution collaborator returns for one
dispatched query: `response.is_complete_response()`,
`response.is_valid_response()`, `response.message` (possibly absent), and
`response.error`. -/
structure QueryResponse where
  isComplete : Bool
  isValid : Bool
  message : Option Message
  error : RespError
deriving DecidableEq

/-- Python 2 evaluation of `cycle_num >= self._max_attempts` (line 164):
`None` compares below every integer in Python 2, so `cycle_num >= None` is
`True` for every attempt count. -/
def pyGeNone (c : Nat) (ma : Option Nat) : Bool :=
  match ma with
  | none => true
  | some m => decide (m ≤ c)

/-- Line 170: `timeout = min(self._timeout, max((start + self._lifetime) -
now, 0))`.  When `lifetime` is `None`, Python 2 raises `TypeError` on
`start + None`. -/
def computeTimeout (cfg : Config) (start now : ℤ) : Except PyError ℤ :=
  match cfg.lifetime with
  | none => .error .typeError
  | some lt => .ok (min cfg.timeout (max ((start + lt) - now) 0))

/-- How the inner `while` loop (lines 161-174) leaves one question: either it
broke out with a `Timeout` outcome (line 165-166), or it enqueued a
single-attempt query to `server` with per-query timeout `qtimeout`
(lines 168-172). -/
inductive SchedAction where
  | timedOut
  | enqueue (server : Server) (qtimeout : ℤ)
deriving DecidableEq

/-- The inner `while query_tuple not in queries` loop (lines 161-174) for one
question, starting from attempt counter `a`; returns the final attempt
counter and the action taken.  Each iteration computes
`divmod(attempts, len(servers))` (crashing with `ZeroDivisionError` on an
empty server list), breaks out with `Timeout` once the cycle number reaches
`max_attempts` (without incrementing the counter, line 166 precedes line
174's increment only on the non-break path), and otherwise selects
`servers[server_index]`, enqueueing it if it is still valid; the attempt
counter is incremented whether or not a query was enqueued.  `tmo` is the
per-query timeout of line 170, evaluated only on the enqueue path, as in
the source.  `fuel` bounds the recursion; `scheduleOne` supplies fuel
exceeding the loop's iteration count, so the 0-fuel branch is unreachable. -/
def scheduleAux (ma : Option Nat) (servers valid : List Server)
    (tmo : Except PyError ℤ) : Nat → Nat → Except PyError (Nat × SchedAction)
  | _, 0 => .error .fuelOut
  | a, fuel + 1 =>
    if servers.length = 0 then .error .zeroDivision
    else if pyGeNone (a / servers.length) ma then .ok (a, .timedOut)
    else
      -- the index `a % servers.length` is always in range, so the default
      -- of `getD` is never read
      let server := servers.getD (a % servers.length) 0
      if server ∈ valid then
        match tmo with
        | .error e => .error e
        | .ok t => .ok (a + 1, .enqueue server t)
      else
        scheduleAux ma servers valid tmo (a + 1) fuel

/-- Fuel sufficient for `scheduleAux`: with `max_attempts = some m` the loop
breaks out as soon as the attempt counter reaches `m * n`, and every
iteration but the last increments it; with `max_attempts = None` the Python 2
comparison breaks out on the first iteration. -/
def schedFuel (ma : Option Nat) (n : Nat) : Nat :=
  match ma with
  | none => 1
  | some m => m * n + 1

/-- One run of the inner scheduling loop for one question. -/
def scheduleOne (ma : Option Nat) (servers valid : List Server)
    (tmo : Except PyError ℤ) (a : Nat) : Except PyError (Nat × SchedAction) :=
  scheduleAux ma servers valid tmo a (schedFuel ma servers.length)

/-! #### The per-batch dictionaries

`answers` is a Python dict keyed by question; it is modelled as an
association list with insert-or-update, which keeps keys unique.  The
per-question attempt counters and valid-server sets are modelled as total
functions updated pointwise (the source initializes them for exactly the
deduplicated questions and never reads other keys). -/

/-- An outcome recorded in `answers`: a successful `DNSAnswer`, or one of the
captured error values (`dns.resolver.NXDOMAIN`, `dns.resolver.NoAnswer`,
`dns.resolver.NoNameservers`, `dns.exception.Timeout`). -/
inductive Outcome where
  | answer (a : DNSAns)
  | nxdomain
  | noAnswer
  | noNameservers
  | timedOut
deriving DecidableEq

/-- `answers[q] = v` on a Python dict: update the binding if the key is
present, append it otherwise. -/
def dictInsert (l : List (Question × Outcome)) (q : Question) (v : Outcome) :
    List (Question × Outcome) :=
  match l with
  | [] => [(q, v)]
  | p :: rest => if p.1 = q then (q, v) :: rest else p :: dictInsert rest q v

/-- `answers.get(q)` on the association list. -/
def dictFind? (l : List (Question × Outcome)) (q : Question) : Option Outcome :=
  match l with
  | [] => none
  | p :: rest => if p.1 = q then some p.2 else dictFind? rest q

/-- Pointwise update of a per-question table. -/
def updFn {α : Type} (f : Question → α) (q : Question) (v : α) : Question → α :=
  fun q' => if q' = q then v else f q'

/-- `tuples_to_query = query_tuples.difference(answers)` (lines 151, 193). -/
def pendingOf (queryTuples : List Question) (answers : List (Question × Outcome)) :
    List Question :=
  queryTuples.filter fun q => (dictFind? answers q).isNone

/-- The per-batch scheduler state threaded between rounds. -/
structure SchedState where
  answers : List (Question × Outcome)
  attempts : Question → Nat
  validServers : Question → List Server

/-- The scheduling phase of one round (the `for query_tuple in
tuples_to_query` loop, lines 156-174): resolve questions with an empty
valid-server set to `NoNameservers` (lines 157-159), and run the inner
scheduling loop for the others, recording `Timeout` outcomes and collecting
the enqueued queries. -/
def scheduleRound (ma : Option Nat) (servers : List Server)
    (valid : Question → List Server) (tmo : Except PyError ℤ) :
    List Question → List (Question × Outcome) → (Question → Nat) →
    List (Question × Server × ℤ) →
    Except PyError (List (Question × Outcome) × (Question → Nat) × List (Question × Server × ℤ))
  | [], ans, att, qs => .ok (ans, att, qs)
  | qt :: rest, ans, att, qs =>
    if (valid qt).isEmpty then
      scheduleRound ma servers valid tmo rest (dictInsert ans qt .noNameservers) att qs
    else
      match scheduleOne ma servers (valid qt) tmo (att qt) with
      | .error e => .error e
      | .ok (a, .timedOut) =>
        scheduleRound ma servers valid tmo rest (dictInsert ans qt .timedOut) (updFn att qt a) qs
      | .ok (a, .enqueue server t) =>
        scheduleRound ma servers valid tmo rest ans (updFn att qt a) (qs ++ [(qt, server, t)])

/-- The response-processing phase of one round (the `for query_tuple, q in
queries.items()` loop, lines 178-191): a complete, valid response is run
through the answer extractor and its result — success or negative answer — is
recorded as the question's outcome; otherwise, if some message was received
or the error is neither a timeout nor a network error, the server is removed
from that question's valid-server set; otherwise nothing changes. -/
def processResponses (allowNA : Bool) (oracle : Question → Server → QueryResponse) :
    List (Question × Server × ℤ) → List (Question × Outcome) →
    (Question → List Server) →
    Except PyError (List (Question × Outcome) × (Question → List Server))
  | [], ans, valid => .ok (ans, valid)
  | (qt, srv, _) :: rest, ans, valid =>
    let resp := oracle qt srv
    if resp.isComplete && resp.isValid then
      match resp.message with
      | none => .error .attributeError
      | some msg =>
        let outcome :=
          match mkDNSAnswer allowNA qt.1 qt.2.1 msg srv with
          | .ok a => Outcome.answer a
          | .error .nxdomain => Outcome.nxdomain
          | .error .noAnswer => Outcome.noAnswer
        processResponses allowNA oracle rest (dictInsert ans qt outcome) valid
    else if resp.message.isSome || !(resp.error == RespError.timeout || resp.error == RespError.networkError) then
      processResponses allowNA oracle rest ans (updFn valid qt ((valid qt).erase srv))
    else
      processResponses allowNA oracle rest ans valid

/-- The per-call context of one `query_multiple` invocation: the
configuration, the server iteration order computed once for the call (lines
145-149), the extractor variant, the deduplicated batch, and the `start`
instant (line 152). -/
structure BatchCtx where
  cfg : Config
  servers : List Server
  allowNA : Bool
  queryTuples : List Question
  start : ℤ

/-- The oracle inputs of one round: the wall-clock reading of the loop guard
(line 153), the `now` reading (line 154), and the collaborator's response for
each dispatched query. -/
structure RoundEnv where
  tCheck : ℤ
  tNow : ℤ
  oracle : Question → Server → QueryResponse

/-- One full round of the scheduler loop body (lines 154-193): schedule the
pending questions, dispatch the collected queries (the barrier of line 176,
whose results the round environment's oracle supplies), and fold the
responses in.  Also returns the queries dispatched this round. -/
def processRound (ctx : BatchCtx) (env : RoundEnv) (st : SchedState) :
    Except PyError (SchedState × List (Question × Server × ℤ)) :=
  match scheduleRound ctx.cfg.maxAttempts ctx.servers st.validServers
      (computeTimeout ctx.cfg ctx.start env.tNow)
      (pendingOf ctx.queryTuples st.answers) st.answers st.attempts [] with
  | .error e => .error e
  | .ok (ans1, att1, qs) =>
    match processResponses ctx.allowNA env.oracle qs ans1 st.validServers with
    | .error e => .error e
    | .ok (ans2, valid2) => .ok (⟨ans2, att1, valid2⟩, qs)

/-- The guard of the round loop (line 153): pending questions remain, and
either no lifetime is configured or the elapsed time is still below it. -/
def loopCond (cfg : Config) (start : ℤ) (pending : List Question) (tCheck : ℤ) : Bool :=
  !pending.isEmpty &&
    (match cfg.lifetime with
     | none => true
     | some lt => decide (tCheck - start < lt))

/-- The final fill-in after the loop exits (lines 195-196): every question
still without an outcome is resolved to `Timeout`. -/
def finalFill (pending : List Question) (ans : List (Question × Outcome)) :
    List (Question × Outcome) :=
  match pending with
  | [] => ans
  | q :: rest => finalFill rest (dictInsert ans q .timedOut)

/-- The scheduler's round loop (line 153), running at most `fuel` rounds and
consuming `envs k` in round `k`.  Returns the final `answers` dict, or `none`
when `fuel` rounds were executed and the loop guard still held (the run was
cut short by the model's budget, not by the source's logic), together with
the log of every query dispatched.  On loop exit the remaining pending
questions are filled in as `Timeout`. -/
def runLoop (ctx : BatchCtx) (envs : Nat → RoundEnv) :
    Nat → Nat → SchedState → List (Question × Server × ℤ) →
    Except PyError (Option (List (Question × Outcome)) × List (Question × Server × ℤ))
  | 0, k, st, log =>
    if loopCond ctx.cfg ctx.start (pendingOf ctx.queryTuples st.answers) (envs k).tCheck then
      .ok (none, log)
    else
      .ok (some (finalFill (pendingOf ctx.queryTuples st.answers) st.answers), log)
  | fuel + 1, k, st, log =>
    if loopCond ctx.cfg ctx.start (pendingOf ctx.queryTuples st.answers) (envs k).tCheck then
      match processRound ctx (envs k) st with
      | .error e => .error e
      | .ok (st', qs) => runLoop ctx envs fuel (k + 1) st' (log ++ qs)
    else
      .ok (some (finalFill (pendingOf ctx.queryTuples st.answers) st.answers), log)

/-- The initial per-batch state (lines 141-143): attempt counter 0 and
valid-server set `set(self._servers)` for every question.  (The source
initializes these dicts for exactly the deduplicated questions; the model
initializes the total tables with the same values everywhere, and only the
batch's keys are ever read.) -/
def initState (cfg : Config) : SchedState :=
  ⟨[], fun _ => 0, fun _ => cfg.servers.dedup⟩

/-- The server iteration order of one `query_multiple` call (lines 145-149):
a shuffled copy of the configured list when `shuffle` is set, the configured
list itself otherwise.  `perm` stands for the permutation `random.shuffle`
applies, which is determined by the global RNG state at the time of this
call. -/
def serverOrder (cfg : Config) (perm : List Server → List Server) : List Server :=
  if cfg.shuffle then perm cfg.servers else cfg.servers

/-- `Resolver.query_multiple` (lines 130-198): deduplicate the batch (line
140), compute the per-call server order, and run the round loop from the
initial state, starting the dispatch log empty. -/
def queryMultiple (cfg : Config) (allowNA : Bool) (input : List Question)
    (perm : List Server → List Server) (start : ℤ) (envs : Nat → RoundEnv)
    (fuel : Nat) :
    Except PyError (Option (List (Question × Outcome)) × List (Question × Server × ℤ)) :=
  runLoop ⟨cfg, serverOrder cfg perm, allowNA, input.dedup, start⟩ envs fuel 0
    (initState cfg) []

/-- The states the round loop of one call can reach: the initial state, and
any state produced from a reachable state by a round whose loop guard held.
This mirrors the steps of `runLoop` exactly. -/
inductive Reaches (ctx : BatchCtx) (envs : Nat → RoundEnv) : Nat → SchedState → Prop where
  | init : Reaches ctx envs 0 (initState ctx.cfg)
  | step {k : Nat} {st st' : SchedState} {qs : List (Question × Server × ℤ)} :
      Reaches ctx envs k st →
      loopCond ctx.cfg ctx.start (pendingOf ctx.queryTuples st.answers) ((envs k).tCheck) = true →
      processRound ctx (envs k) st = .ok (st', qs) →
      Reaches ctx envs (k + 1) st'

/-- The state after one round, with errors propagated (used to observe
intermediate states of concrete runs). -/
def roundState (ctx : BatchCtx) (env : RoundEnv) (st : Except PyError SchedState) :
    Except PyError SchedState :=
  match st with
  | .error e => .error e
  | .ok s => (processRound ctx env s).map Prod.fst

/-! ### Lemmas about the answers dictionary -/

theorem mem_keys_dictInsert {l : List (Question × Outcome)} {q q' : Question}
    {v : Outcome} :
    q' ∈ (dictInsert l q v).map Prod.fst ↔ q' = q ∨ q' ∈ l.map Prod.fst := by
  induction l with
  | nil => simp [dictInsert]
  | cons p rest ih =>
    by_cases hp : p.1 = q <;> simp [dictInsert, hp, ih] <;> tauto

theorem nodup_keys_dictInsert {l : List (Question × Outcome)} {q : Question}
    {v : Outcome} (h : (l.map Prod.fst).Nodup) :
    ((dictInsert l q v).map Prod.fst).Nodup := by
  induction l with
  | nil => simp [dictInsert]
  | cons p rest ih =>
    simp only [List.map_cons, List.nodup_cons] at h
    by_cases hp : p.1 = q
    · subst hp
      simpa [dictInsert] using h
    · simp only [dictInsert, hp, if_false, List.map_cons, List.nodup_cons]
      refine ⟨fun hc => ?_, ih h.2⟩
      rcases mem_keys_dictInsert.mp hc with h1 | h1
      · exact hp h1
      · exact h.1 h1

theorem dictFind?_dictInsert_self {l : List (Question × Outcome)} {q : Question}
    {v : Outcome} : dictFind? (dictInsert l q v) q = some v := by
  induction l with
  | nil => simp [dictInsert, dictFind?]
  | cons p rest ih =>
    by_cases hp : p.1 = q
    · simp [dictInsert, hp, dictFind?]
    · simp [dictInsert, hp, dictFind?, ih]

theorem dictFind?_dictInsert_ne {l : List (Question × Outcome)} {q q' : Question}
    {v : Outcome} (h : q' ≠ q) :
    dictFind? (dictInsert l q v) q' = dictFind? l q' := by
  induction l with
  | nil => simp [dictInsert, dictFind?, Ne.symm h]
  | cons p rest ih =>
    by_cases hp : p.1 = q
    · subst hp
      simp [dictInsert, dictFind?, Ne.symm h]
    · by_cases hp' : p.1 = q'
      · simp [dictInsert, hp, dictFind?, hp', h]
      · simp [dictInsert, hp, dictFind?, hp', ih]

theorem dictFind?_eq_none_iff {l : List (Question × Outcome)} {q : Question} :
    dictFind? l q = none ↔ q ∉ l.map Prod.fst := by
  induction l with
  | nil => simp [dictFind?]
  | cons p rest ih =>
    by_cases hp : p.1 = q
    · subst hp
      simp [dictFind?]
    · simp [dictFind?, hp, ih, Ne.symm hp]

theorem dictFind?_isSome_of_mem {l : List (Question × Outcome)} {q : Question}
    (h : q ∈ l.map Prod.fst) : ∃ v, dictFind? l q = some v := by
  cases hf : dictFind? l q with
  | none => exact absurd h (dictFind?_eq_none_iff.mp hf)
  | some v => exact ⟨v, rfl⟩

/-! ### Lemmas about the inner scheduling loop -/

theorem scheduleAux_ne_fuelOut_some {servers valid : List Server}
    {tmo : Except PyError ℤ} {m : Nat} (htmo : tmo ≠ .error .fuelOut) :
    ∀ (fuel a : Nat), m * servers.length - a < fuel →
      scheduleAux (some m) servers valid tmo a fuel ≠ .error .fuelOut := by
  intro fuel
  induction fuel with
  | zero => intro a ha; omega
  | succ n ih =>
    intro a ha
    simp only [scheduleAux]
    by_cases hn : servers.length = 0
    · simp [hn]
    · simp only [hn, if_false]
      by_cases hge : pyGeNone (a / servers.length) (some m)
      · simp [hge]
      · simp only [hge, Bool.false_eq_true, if_false]
        by_cases hv : servers.getD (a % servers.length) 0 ∈ valid
        · simp only [hv, if_true]
          cases htm : tmo with
          | error e =>
            intro hc
            simp only [Except.error.injEq] at hc
            exact htmo (by rw [htm, hc])
          | ok t => simp
        · simp only [hv, if_false]
          apply ih
          have hlt : a / servers.length < m := by
            simpa [pyGeNone] using hge
          have : a < m * servers.length :=
            (Nat.div_lt_iff_lt_mul (Nat.pos_of_ne_zero hn)).mp hlt
          omega

theorem scheduleOne_no_fuelOut {ma : Option Nat} {servers valid : List Server}
    {tmo : Except PyError ℤ} {a : Nat} (htmo : tmo ≠ .error .fuelOut) :
    scheduleOne ma servers valid tmo a ≠ .error .fuelOut := by
  cases ma with
  | none =>
    simp only [scheduleOne, schedFuel, scheduleAux]
    by_cases hn : servers.length = 0
    · simp [hn]
    · simp [hn, pyGeNone]
  | some m =>
    exact scheduleAux_ne_fuelOut_some htmo _ a (by simp only [schedFuel]; omega)

theorem scheduleAux_attempts_le {servers valid : List Server}
    {tmo : Except PyError ℤ} {m : Nat} :
    ∀ (fuel a : Nat) {a' : Nat} {act : SchedAction}, a ≤ m * servers.length →
      scheduleAux (some m) servers valid tmo a fuel = .ok (a', act) →
      a' ≤ m * servers.length := by
  intro fuel
  induction fuel with
  | zero => intro a a' act ha h; simp [scheduleAux] at h
  | succ n ih =>
    intro a a' act ha h
    simp only [scheduleAux] at h
    by_cases hn : servers.length = 0
    · simp [hn] at h
    · simp only [hn, if_false] at h
      by_cases hge : pyGeNone (a / servers.length) (some m)
      · simp only [hge, if_true, Except.ok.injEq, Prod.mk.injEq] at h
        omega
      · simp only [hge, Bool.false_eq_true, if_false] at h
        have hlt : a / servers.length < m := by
          simpa [pyGeNone] using hge
        have haM : a < m * servers.length :=
          (Nat.div_lt_iff_lt_mul (Nat.pos_of_ne_zero hn)).mp hlt
        by_cases hv : servers.getD (a % servers.length) 0 ∈ valid
        · simp only [hv, if_true] at h
          cases htm : tmo with
          | error e => rw [htm] at h; simp at h
          | ok t =>
            rw [htm] at h
            simp only [Except.ok.injEq, Prod.mk.injEq] at h
            omega
        · simp only [hv, if_false] at h
          exact ih a.succ (by omega) h

theorem scheduleOne_timedOut_of_cycle {servers valid : List Server}
    {tmo : Except PyError ℤ} {m a : Nat} (hn : servers.length ≠ 0)
    (ha : m ≤ a / servers.length) :
    scheduleOne (some m) servers valid tmo a = .ok (a, .timedOut) := by
  show scheduleAux (some m) servers valid tmo a (schedFuel (some m) servers.length)
    = .ok (a, .timedOut)
  rw [show schedFuel (some m) servers.length = m * servers.length + 1 from rfl]
  simp [scheduleAux, hn, pyGeNone, ha]

theorem scheduleAux_enqueue {servers valid : List Server}
    {tmo : Except PyError ℤ} {ma : Option Nat} :
    ∀ {fuel a a' : Nat} {s : Server} {t : ℤ},
      scheduleAux ma servers valid tmo a fuel = .ok (a', .enqueue s t) →
      s ∈ valid ∧ s = servers.getD ((a' - 1) % servers.length) 0 ∧
        a < a' ∧ tmo = .ok t := by
  intro fuel
  induction fuel with
  | zero => intro a a' s t h; simp [scheduleAux] at h
  | succ n ih =>
    intro a a' s t h
    simp only [scheduleAux] at h
    by_cases hn : servers.length = 0
    · simp [hn] at h
    · simp only [hn, if_false] at h
      by_cases hge : pyGeNone (a / servers.length) ma
      · simp only [hge, if_true, Except.ok.injEq, Prod.mk.injEq] at h
        exact absurd h.2 (by simp)
      · simp only [hge, Bool.false_eq_true, if_false] at h
        by_cases hv : servers.getD (a % servers.length) 0 ∈ valid
        · simp only [hv, if_true] at h
          cases htm : tmo with
          | error e => rw [htm] at h; simp at h
          | ok t0 =>
            rw [htm] at h
            simp only [Except.ok.injEq, Prod.mk.injEq, SchedAction.enqueue.injEq] at h
            obtain ⟨ha', hs, ht⟩ := h
            subst ha'
            refine ⟨hs ▸ hv, ?_, by omega, by rw [ht]⟩
            simpa [Nat.add_sub_cancel] using hs.symm
        · simp only [hv, if_false] at h
          obtain ⟨h1, h2, h3, h4⟩ := ih h
          exact ⟨h1, h2, by omega, h4⟩

/-- When the inner scheduling loop enqueues a query, the enqueued server is
a member of the question's valid-server set, it is the server at index
`(final attempt counter - 1) mod server count` of the round's server order,
the attempt counter strictly advanced, and the per-query timeout is the one
computed for the round. -/
theorem scheduleOne_enqueue {servers valid : List Server}
    {tmo : Except PyError ℤ} {ma : Option Nat} {a a' : Nat} {s : Server} {t : ℤ}
    (h : scheduleOne ma servers valid tmo a = .ok (a', .enqueue s t)) :
    s ∈ valid ∧ s = servers.getD ((a' - 1) % servers.length) 0 ∧
      a < a' ∧ tmo = .ok t :=
  scheduleAux_enqueue h

/-! ### Lemmas about the scheduling phase of a round -/

theorem scheduleRound_inv {ma : Option Nat} {servers : List Server}
    {valid : Question → List Server} {tmo : Except PyError ℤ} :
    ∀ (pending : List Question) (ans : List (Question × Outcome))
      (att : Question → Nat) (qs : List (Question × Server × ℤ))
      {ans' : List (Question × Outcome)} {att' : Question → Nat}
      {qs' : List (Question × Server × ℤ)},
      scheduleRound ma servers valid tmo pending ans att qs = .ok (ans', att', qs') →
      (∀ q, q ∈ ans'.map Prod.fst → q ∈ ans.map Prod.fst ∨ q ∈ pending) ∧
      ((ans.map Prod.fst).Nodup → (ans'.map Prod.fst).Nodup) ∧
      (∀ e, e ∈ qs' → e ∈ qs ∨ e.1 ∈ pending) := by
  intro pending
  induction pending with
  | nil =>
    intro ans att qs ans' att' qs' h
    simp only [scheduleRound, Except.ok.injEq, Prod.mk.injEq] at h
    obtain ⟨h1, -, h3⟩ := h
    subst h1
    subst h3
    exact ⟨fun q hq => Or.inl hq, id, fun e he => Or.inl he⟩
  | cons qt rest ih =>
    intro ans att qs ans' att' qs' h
    simp only [scheduleRound] at h
    split at h
    · obtain ⟨h1, h2, h3⟩ := ih _ _ _ h
      refine ⟨fun q hq => ?_, fun hnd => h2 (nodup_keys_dictInsert hnd), fun e he => ?_⟩
      · rcases h1 q hq with hq' | hq'
        · rcases mem_keys_dictInsert.mp hq' with rfl | hq''
          · exact Or.inr (List.mem_cons_self _ _)
          · exact Or.inl hq''
        · exact Or.inr (List.mem_cons_of_mem _ hq')
      · rcases h3 e he with he' | he'
        · exact Or.inl he'
        · exact Or.inr (List.mem_cons_of_mem _ he')
    · split at h
      · exact absurd h (by simp)
      · obtain ⟨h1, h2, h3⟩ := ih _ _ _ h
        refine ⟨fun q hq => ?_, fun hnd => h2 (nodup_keys_dictInsert hnd), fun e he => ?_⟩
        · rcases h1 q hq with hq' | hq'
          · rcases mem_keys_dictInsert.mp hq' with rfl | hq''
            · exact Or.inr (List.mem_cons_self _ _)
            · exact Or.inl hq''
          · exact Or.inr (List.mem_cons_of_mem _ hq')
        · rcases h3 e he with he' | he'
          · exact Or.inl he'
          · exact Or.inr (List.mem_cons_of_mem _ he')
      · obtain ⟨h1, h2, h3⟩ := ih _ _ _ h
        refine ⟨fun q hq => ?_, h2, fun e he => ?_⟩
        · rcases h1 q hq with hq' | hq'
          · exact Or.inl hq'
          · exact Or.inr (List.mem_cons_of_mem _ hq')
        · rcases h3 e he with he' | he'
          · rcases List.mem_append.mp he' with he'' | he''
            · exact Or.inl he''
            · have he3 := List.mem_singleton.mp he''
              subst he3
              exact Or.inr (List.mem_cons_self _ _)
          · exact Or.inr (List.mem_cons_of_mem _ he')

theorem scheduleRound_attempts_le {m : Nat} {servers : List Server}
    {valid : Question → List Server} {tmo : Except PyError ℤ} :
    ∀ (pending : List Question) (ans : List (Question × Outcome))
      (att : Question → Nat) (qs : List (Question × Server × ℤ))
      {ans' : List (Question × Outcome)} {att' : Question → Nat}
      {qs' : List (Question × Server × ℤ)},
      (∀ q, att q ≤ m * servers.length) →
      scheduleRound (some m) servers valid tmo pending ans att qs = .ok (ans', att', qs') →
      ∀ q, att' q ≤ m * servers.length := by
  intro pending
  induction pending with
  | nil =>
    intro ans att qs ans' att' qs' hb h
    simp only [scheduleRound, Except.ok.injEq, Prod.mk.injEq] at h
    obtain ⟨-, h2, -⟩ := h
    subst h2
    exact hb
  | cons qt rest ih =>
    intro ans att qs ans' att' qs' hb h
    simp only [scheduleRound] at h
    split at h
    · exact ih _ _ _ hb h
    · split at h
      · exact absurd h (by simp)
      · next a hso =>
        refine ih _ _ _ (fun q => ?_) h
        by_cases hq : q = qt
        · subst hq
          simpa [updFn] using scheduleAux_attempts_le _ _ (hb q) hso
        · simpa [updFn, hq] using hb q
      · next a srv t hso =>
        refine ih _ _ _ (fun q => ?_) h
        by_cases hq : q = qt
        · subst hq
          simpa [updFn] using scheduleAux_attempts_le _ _ (hb q) hso
        · simpa [updFn, hq] using hb q

theorem scheduleRound_empty_valid {ma : Option Nat} {servers : List Server}
    {valid : Question → List Server} {tmo : Except PyError ℤ} {q : Question}
    (hv : valid q = []) :
    ∀ (pending : List Question) (ans : List (Question × Outcome))
      (att : Question → Nat) (qs : List (Question × Server × ℤ))
      {ans' : List (Question × Outcome)} {att' : Question → Nat}
      {qs' : List (Question × Server × ℤ)},
      (q ∈ pending ∨ dictFind? ans q = some .noNameservers) →
      scheduleRound ma servers valid tmo pending ans att qs = .ok (ans', att', qs') →
      dictFind? ans' q = some .noNameservers ∧ ∀ e ∈ qs', e ∈ qs ∨ e.1 ≠ q := by
  intro pending
  induction pending with
  | nil =>
    intro ans att qs ans' att' qs' hq h
    simp only [scheduleRound, Except.ok.injEq, Prod.mk.injEq] at h
    obtain ⟨h1, -, h3⟩ := h
    subst h1
    subst h3
    rcases hq with hq | hq
    · exact absurd hq (List.not_mem_nil q)
    · exact ⟨hq, fun e he => Or.inl he⟩
  | cons qt rest ih =>
    intro ans att qs ans' att' qs' hq h
    simp only [scheduleRound] at h
    by_cases hqt : qt = q
    · subst hqt
      rw [if_pos (by simp [hv])] at h
      exact ih _ _ _ (Or.inr dictFind?_dictInsert_self) h
    · have hq' : q ∈ rest ∨ dictFind? ans q = some .noNameservers := by
        rcases hq with hq | hq
        · rcases List.mem_cons.mp hq with h' | h'
          · exact absurd h'.symm hqt
          · exact Or.inl h'
        · exact Or.inr hq
      split at h
      · refine ih _ _ _ ?_ h
        rcases hq' with h' | h'
        · exact Or.inl h'
        · exact Or.inr (by rw [dictFind?_dictInsert_ne (Ne.symm hqt)]; exact h')
      · split at h
        · exact absurd h (by simp)
        · next a hso =>
          refine ih _ _ _ ?_ h
          rcases hq' with h' | h'
          · exact Or.inl h'
          · exact Or.inr (by rw [dictFind?_dictInsert_ne (Ne.symm hqt)]; exact h')
        · next a srv t hso =>
          obtain ⟨hans, hqs⟩ := ih _ _ _ hq' h
          refine ⟨hans, fun e he => ?_⟩
          rcases hqs e he with he' | he'
          · rcases List.mem_append.mp he' with he'' | he''
            · exact Or.inl he''
            · have he3 := List.mem_singleton.mp he''
              subst he3
              exact Or.inr hqt
          · exact Or.inr he'

theorem scheduleOne_none_timedOut {servers valid : List Server}
    {tmo : Except PyError ℤ} {a : Nat} (hn : servers.length ≠ 0) :
    scheduleOne none servers valid tmo a = .ok (a, .timedOut) := by
  simp [scheduleOne, schedFuel, scheduleAux, hn, pyGeNone]

theorem scheduleRound_none_ma {servers : List Server}
    {valid : Question → List Server} {tmo : Except PyError ℤ}
    (hn : servers.length ≠ 0) :
    ∀ (pending : List Question) (ans : List (Question × Outcome))
      (att : Question → Nat) (qs : List (Question × Server × ℤ)),
      (∀ q ∈ pending, valid q ≠ []) →
      ∃ ans' att',
        scheduleRound none servers valid tmo pending ans att qs = .ok (ans', att', qs) ∧
        ∀ q, (q ∈ pending ∨ dictFind? ans q = some .timedOut) →
          dictFind? ans' q = some .timedOut := by
  intro pending
  induction pending with
  | nil =>
    intro ans att qs hv
    refine ⟨ans, att, rfl, fun q hq => ?_⟩
    rcases hq with hq | hq
    · exact absurd hq (List.not_mem_nil q)
    · exact hq
  | cons qt rest ih =>
    intro ans att qs hv
    have hvq : valid qt ≠ [] := hv qt (List.mem_cons_self _ _)
    obtain ⟨ans', att', hrun, hbind⟩ :=
      ih (dictInsert ans qt .timedOut) (updFn att qt (att qt)) qs
        (fun q hq => hv q (List.mem_cons_of_mem _ hq))
    refine ⟨ans', att', ?_, ?_⟩
    · simp only [scheduleRound]
      rw [if_neg (by simpa [List.isEmpty_iff] using hvq)]
      rw [scheduleOne_none_timedOut hn]
      exact hrun
    · intro q hq
      apply hbind
      by_cases hq' : q = qt
      · subst hq'
        exact Or.inr dictFind?_dictInsert_self
      · rcases hq with hq | hq
        · rcases List.mem_cons.mp hq with h' | h'
          · exact absurd h' hq'
          · exact Or.inl h'
        · exact Or.inr (by rw [dictFind?_dictInsert_ne hq']; exact hq)

/-! ### Lemmas about the response-processing phase -/

theorem processResponses_inv {allowNA : Bool}
    {oracle : Question → Server → QueryResponse} :
    ∀ (qs : List (Question × Server × ℤ)) (ans : List (Question × Outcome))
      (valid : Question → List Server) {ans' : List (Question × Outcome)}
      {valid' : Question → List Server},
      processResponses allowNA oracle qs ans valid = .ok (ans', valid') →
      (∀ q, q ∈ ans'.map Prod.fst → q ∈ ans.map Prod.fst ∨ ∃ e ∈ qs, e.1 = q) ∧
      ((ans.map Prod.fst).Nodup → (ans'.map Prod.fst).Nodup) ∧
      (∀ q x, x ∈ valid' q → x ∈ valid q) := by
  intro qs
  induction qs with
  | nil =>
    intro ans valid ans' valid' h
    simp only [processResponses, Except.ok.injEq, Prod.mk.injEq] at h
    obtain ⟨h1, h2⟩ := h
    subst h1
    subst h2
    exact ⟨fun q hq => Or.inl hq, id, fun q x hx => hx⟩
  | cons e rest ih =>
    obtain ⟨qt, srv, t⟩ := e
    intro ans valid ans' valid' h
    simp only [processResponses] at h
    split at h
    · split at h
      · exact absurd h (by simp)
      · obtain ⟨h1, h2, h3⟩ := ih _ _ h
        refine ⟨fun q hq => ?_, fun hnd => h2 (nodup_keys_dictInsert hnd), h3⟩
        rcases h1 q hq with hq' | hq'
        · rcases mem_keys_dictInsert.mp hq' with rfl | hq''
          · exact Or.inr ⟨(q, srv, t), List.mem_cons_self _ _, rfl⟩
          · exact Or.inl hq''
        · obtain ⟨e', he', he''⟩ := hq'
          exact Or.inr ⟨e', List.mem_cons_of_mem _ he', he''⟩
    · split at h
      · obtain ⟨h1, h2, h3⟩ := ih _ _ h
        refine ⟨fun q hq => ?_, h2, fun q x hx => ?_⟩
        · rcases h1 q hq with hq' | hq'
          · exact Or.inl hq'
          · obtain ⟨e', he', he''⟩ := hq'
            exact Or.inr ⟨e', List.mem_cons_of_mem _ he', he''⟩
        · have hx' := h3 q x hx
          by_cases hq : q = qt
          · subst hq
            simp only [updFn, if_pos rfl] at hx'
            exact List.mem_of_mem_erase hx'
          · simpa [updFn, hq] using hx'
      · obtain ⟨h1, h2, h3⟩ := ih _ _ h
        refine ⟨fun q hq => ?_, h2, h3⟩
        rcases h1 q hq with hq' | hq'
        · exact Or.inl hq'
        · obtain ⟨e', he', he''⟩ := hq'
          exact Or.inr ⟨e', List.mem_cons_of_mem _ he', he''⟩

theorem processResponses_frame {allowNA : Bool}
    {oracle : Question → Server → QueryResponse} {q : Question} :
    ∀ (qs : List (Question × Server × ℤ)) (ans : List (Question × Outcome))
      (valid : Question → List Server) {ans' : List (Question × Outcome)}
      {valid' : Question → List Server},
      (∀ e ∈ qs, e.1 ≠ q) →
      processResponses allowNA oracle qs ans valid = .ok (ans', valid') →
      dictFind? ans' q = dictFind? ans q ∧ valid' q = valid q := by
  intro qs
  induction qs with
  | nil =>
    intro ans valid ans' valid' hne h
    simp only [processResponses, Except.ok.injEq, Prod.mk.injEq] at h
    obtain ⟨h1, h2⟩ := h
    subst h1
    subst h2
    exact ⟨rfl, rfl⟩
  | cons e rest ih =>
    obtain ⟨qt, srv, t⟩ := e
    intro ans valid ans' valid' hne h
    have hqt : qt ≠ q := hne (qt, srv, t) (List.mem_cons_self _ _)
    have hne' : ∀ e ∈ rest, e.1 ≠ q := fun e he => hne e (List.mem_cons_of_mem _ he)
    simp only [processResponses] at h
    split at h
    · split at h
      · exact absurd h (by simp)
      · obtain ⟨h1, h2⟩ := ih _ _ hne' h
        exact ⟨by rw [h1, dictFind?_dictInsert_ne (Ne.symm hqt)], h2⟩
    · split at h
      · obtain ⟨h1, h2⟩ := ih _ _ hne' h
        refine ⟨h1, ?_⟩
        rw [h2]
        simp [updFn, Ne.symm hqt]
      · exact ih _ _ hne' h

/-! ### Lemmas about the final fill-in -/

theorem mem_keys_finalFill :
    ∀ (pending : List Question) (ans : List (Question × Outcome)) (q : Question),
      q ∈ (finalFill pending ans).map Prod.fst ↔ q ∈ pending ∨ q ∈ ans.map Prod.fst := by
  intro pending
  induction pending with
  | nil => intro ans q; simp [finalFill]
  | cons p rest ih =>
    intro ans q
    simp only [finalFill]
    rw [ih]
    constructor
    · rintro (h | h)
      · exact Or.inl (List.mem_cons_of_mem _ h)
      · rcases mem_keys_dictInsert.mp h with rfl | h'
        · exact Or.inl (List.mem_cons_self _ _)
        · exact Or.inr h'
    · rintro (h | h)
      · rcases List.mem_cons.mp h with rfl | h'
        · exact Or.inr (mem_keys_dictInsert.mpr (Or.inl rfl))
        · exact Or.inl h'
      · exact Or.inr (mem_keys_dictInsert.mpr (Or.inr h))

theorem nodup_keys_finalFill :
    ∀ (pending : List Question) (ans : List (Question × Outcome)),
      (ans.map Prod.fst).Nodup → ((finalFill pending ans).map Prod.fst).Nodup := by
  intro pending
  induction pending with
  | nil => intro ans h; exact h
  | cons p rest ih =>
    intro ans h
    exact ih _ (nodup_keys_dictInsert h)

theorem finalFill_timedOut {q : Question} :
    ∀ (pending : List Question) (ans : List (Question × Outcome)),
      (q ∈ pending ∨ dictFind? ans q = some .timedOut) →
      dictFind? (finalFill pending ans) q = some .timedOut := by
  intro pending
  induction pending with
  | nil =>
    intro ans hq
    rcases hq with hq | hq
    · exact absurd hq (List.not_mem_nil q)
    · exact hq
  | cons p rest ih =>
    intro ans hq
    simp only [finalFill]
    apply ih
    by_cases hp : q = p
    · subst hp
      exact Or.inr dictFind?_dictInsert_self
    · rcases hq with hq | hq
      · rcases List.mem_cons.mp hq with h' | h'
        · exact absurd h' hp
        · exact Or.inl h'
      · exact Or.inr (by rw [dictFind?_dictInsert_ne hp]; exact hq)

/-! ### Lemmas about whole rounds and the round loop -/

theorem processRound_inv {ctx : BatchCtx} {env : RoundEnv} {st st' : SchedState}
    {qs : List (Question × Server × ℤ)}
    (hnd : (st.answers.map Prod.fst).Nodup)
    (hsub : ∀ q, q ∈ st.answers.map Prod.fst → q ∈ ctx.queryTuples)
    (h : processRound ctx env st = .ok (st', qs)) :
    (st'.answers.map Prod.fst).Nodup ∧
    (∀ q, q ∈ st'.answers.map Prod.fst → q ∈ ctx.queryTuples) := by
  unfold processRound at h
  split at h
  · exact absurd h (by simp)
  · next ans1 att1 qs1 hsr =>
    split at h
    · exact absurd h (by simp)
    · next ans2 valid2 hpr =>
      simp only [Except.ok.injEq, Prod.mk.injEq] at h
      obtain ⟨hst, -⟩ := h
      subst hst
      obtain ⟨s1, s2, s3⟩ := scheduleRound_inv _ _ _ _ hsr
      obtain ⟨p1, p2, -⟩ := processResponses_inv _ _ _ hpr
      refine ⟨p2 (s2 hnd), fun q hq => ?_⟩
      rcases p1 q hq with hq' | hq'
      · rcases s1 q hq' with h' | h'
        · exact hsub q h'
        · exact List.mem_of_mem_filter h'
      · obtain ⟨e, he, he'⟩ := hq'
        rcases s3 e he with h' | h'
        · exact absurd h' (List.not_mem_nil e)
        · subst he'
          exact List.mem_of_mem_filter h'

theorem processRound_valid_subset {ctx : BatchCtx} {env : RoundEnv}
    {st st' : SchedState} {qs : List (Question × Server × ℤ)}
    (h : processRound ctx env st = .ok (st', qs)) :
    ∀ q x, x ∈ st'.validServers q → x ∈ st.validServers q := by
  unfold processRound at h
  split at h
  · exact absurd h (by simp)
  · next ans1 att1 qs1 hsr =>
    split at h
    · exact absurd h (by simp)
    · next ans2 valid2 hpr =>
      simp only [Except.ok.injEq, Prod.mk.injEq] at h
      obtain ⟨hst, -⟩ := h
      subst hst
      exact (processResponses_inv _ _ _ hpr).2.2

theorem processRound_empty_valid {ctx : BatchCtx} {env : RoundEnv}
    {st st' : SchedState} {qs : List (Question × Server × ℤ)} {q : Question}
    (hq : q ∈ ctx.queryTuples) (hv : st.validServers q = [])
    (hp : dictFind? st.answers q = none)
    (h : processRound ctx env st = .ok (st', qs)) :
    dictFind? st'.answers q = some .noNameservers ∧ (∀ e ∈ qs, e.1 ≠ q) ∧
    st'.validServers q = [] := by
  unfold processRound at h
  split at h
  · exact absurd h (by simp)
  · next ans1 att1 qs1 hsr =>
    split at h
    · exact absurd h (by simp)
    · next ans2 valid2 hpr =>
      simp only [Except.ok.injEq, Prod.mk.injEq] at h
      obtain ⟨hst, hqs1⟩ := h
      subst hst
      subst hqs1
      have hqp : q ∈ pendingOf ctx.queryTuples st.answers := by
        simp only [pendingOf, List.mem_filter]
        exact ⟨hq, by simp [hp]⟩
      obtain ⟨hans, hqs⟩ := scheduleRound_empty_valid hv _ _ _ _ (Or.inl hqp) hsr
      have hqs' : ∀ e ∈ qs1, e.1 ≠ q := fun e he =>
        (hqs e he).resolve_left (List.not_mem_nil e)
      obtain ⟨hf, hvv⟩ := processResponses_frame _ _ _ hqs' hpr
      exact ⟨by show dictFind? ans2 q = _; rw [hf]; exact hans, hqs',
        by show valid2 q = []; rw [hvv]; exact hv⟩

theorem finalFill_cover {queryTuples : List Question}
    {ans : List (Question × Outcome)} (hnd : (ans.map Prod.fst).Nodup)
    (hsub : ∀ q, q ∈ ans.map Prod.fst → q ∈ queryTuples) :
    ((finalFill (pendingOf queryTuples ans) ans).map Prod.fst).Nodup ∧
    (∀ q, q ∈ (finalFill (pendingOf queryTuples ans) ans).map Prod.fst ↔
      q ∈ queryTuples) := by
  refine ⟨nodup_keys_finalFill _ _ hnd, fun q => ?_⟩
  rw [mem_keys_finalFill]
  constructor
  · rintro (h | h)
    · exact List.mem_of_mem_filter h
    · exact hsub q h
  · intro hq
    by_cases hm : q ∈ ans.map Prod.fst
    · exact Or.inr hm
    · refine Or.inl ?_
      simp only [pendingOf, List.mem_filter]
      exact ⟨hq, by simp [dictFind?_eq_none_iff.mpr hm]⟩

theorem runLoop_total_coverage {ctx : BatchCtx} {envs : Nat → RoundEnv} :
    ∀ (fuel k : Nat) (st : SchedState) (log : List (Question × Server × ℤ))
      {answers : List (Question × Outcome)} {log' : List (Question × Server × ℤ)},
      (st.answers.map Prod.fst).Nodup →
      (∀ q, q ∈ st.answers.map Prod.fst → q ∈ ctx.queryTuples) →
      runLoop ctx envs fuel k st log = .ok (some answers, log') →
      (answers.map Prod.fst).Nodup ∧
      (∀ q, q ∈ answers.map Prod.fst ↔ q ∈ ctx.queryTuples) := by
  intro fuel
  induction fuel with
  | zero =>
    intro k st log answers log' hnd hsub h
    simp only [runLoop] at h
    split at h
    · exact absurd h (by simp)
    · simp only [Except.ok.injEq, Prod.mk.injEq, Option.some.injEq] at h
      obtain ⟨h1, -⟩ := h
      subst h1
      exact finalFill_cover hnd hsub
  | succ n ih =>
    intro k st log answers log' hnd hsub h
    simp only [runLoop] at h
    split at h
    · split at h
      · exact absurd h (by simp)
      · next st' qs hpr =>
        obtain ⟨hnd', hsub'⟩ := processRound_inv hnd hsub hpr
        exact ih _ _ _ hnd' hsub' h
    · simp only [Except.ok.injEq, Prod.mk.injEq, Option.some.injEq] at h
      obtain ⟨h1, -⟩ := h
      subst h1
      exact finalFill_cover hnd hsub

theorem pendingOf_nil (qts : List Question) : pendingOf qts [] = qts := by
  simp [pendingOf, dictFind?]

theorem pendingOf_eq_nil {qts : List Question} {ans : List (Question × Outcome)}
    (h : ∀ q ∈ qts, ∃ v, dictFind? ans q = some v) : pendingOf qts ans = [] := by
  rw [pendingOf, List.filter_eq_nil_iff]
  intro q hq
  obtain ⟨v, hv⟩ := h q hq
  simp [hv]

theorem processRound_attempts_le {ctx : BatchCtx} {env : RoundEnv}
    {st st' : SchedState} {qs : List (Question × Server × ℤ)} {m : Nat}
    (hm : ctx.cfg.maxAttempts = some m)
    (hb : ∀ q, st.attempts q ≤ m * ctx.servers.length)
    (h : processRound ctx env st = .ok (st', qs)) :
    ∀ q, st'.attempts q ≤ m * ctx.servers.length := by
  unfold processRound at h
  rw [hm] at h
  split at h
  · exact absurd h (by simp)
  · next ans1 att1 qs1 hsr =>
    split at h
    · exact absurd h (by simp)
    · next ans2 valid2 hpr =>
      simp only [Except.ok.injEq, Prod.mk.injEq] at h
      obtain ⟨hst, -⟩ := h
      subst hst
      exact scheduleRound_attempts_le _ _ _ _ hb hsr

/-! ### Concrete fixtures shared by witnesses and counterexamples -/

/-- A question used by concrete runs. -/
def qA : Question := (1, 1, 1)

/-- A pure-timeout response record: incomplete, invalid, no message,
timeout error class. -/
def respTimeoutFx : QueryResponse := ⟨false, false, none, .timeout⟩

/-- A malformed response record: incomplete, invalid, but some message was
received. -/
def respMalformedFx : QueryResponse := ⟨false, false, some ⟨0, []⟩, .other⟩

/-- A round environment whose every query times out, observed at instant 0. -/
def envTimeoutFx : RoundEnv := ⟨0, 0, fun _ _ => respTimeoutFx⟩

/-- A round environment whose every query yields a malformed response,
observed at instant 0. -/
def envMalformedFx : RoundEnv := ⟨0, 0, fun _ _ => respMalformedFx⟩

/-! ### Claims about the scheduler -/

/-- Claim C1: whenever a `query_multiple` run completes, the returned
mapping's key set equals the deduplicated set of input question tuples —
keys are unique, every input question appears as a key, and every key is an
input question; each key is bound to one `Outcome` (a `DNSAnswer` or a
captured error). -/
theorem c1_total_coverage (cfg : Config) (allowNA : Bool) (input : List Question)
    (perm : List Server → List Server) (start : ℤ) (envs : Nat → RoundEnv)
    (fuel : Nat) (answers : List (Question × Outcome))
    (log : List (Question × Server × ℤ))
    (h : queryMultiple cfg allowNA input perm start envs fuel = .ok (some answers, log)) :
    (answers.map Prod.fst).Nodup ∧
    (∀ q, q ∈ answers.map Prod.fst ↔ q ∈ input) := by
  obtain ⟨h1, h2⟩ := runLoop_total_coverage fuel 0 (initState cfg) []
    (by simp [initState]) (by simp [initState]) h
  exact ⟨h1, fun q => (h2 q).trans List.mem_dedup⟩

/-- Witness for claim C1: a completing concrete run over the batch
`[qA, qA]` (a duplicated question) returns the key set `{qA}`. -/
theorem c1_total_coverage_witness :
    (([(qA, Outcome.timedOut)].map Prod.fst).Nodup) ∧
    (qA ∈ [(qA, Outcome.timedOut)].map Prod.fst ↔ qA ∈ [qA, qA]) := by
  have h := c1_total_coverage ⟨[3], 1, none, some 100, false⟩ false [qA, qA] id 0
    (fun _ => envTimeoutFx) 1 [(qA, .timedOut)] [] rfl
  exact ⟨h.1, h.2 qA⟩

/-- Claim C2: with `max_attempts = m` configured, the attempt counter of
every question never exceeds `m * server_count` in any reachable scheduler
state, and as soon as a question's cycle number `attempts / server_count`
reaches `m`, the inner scheduling loop resolves it to the `Timeout` outcome
with the attempt counter unchanged and no query enqueued — for every value of
the per-query timeout argument, hence regardless of the wall clock. -/
theorem c2_attempts_bounded {ctx : BatchCtx} {envs : Nat → RoundEnv} {k : Nat}
    {st : SchedState} {m : Nat} (valid : List Server) (tmo : Except PyError ℤ)
    (a : Nat) (hm : ctx.cfg.maxAttempts = some m)
    (hr : Reaches ctx envs k st) (hn : ctx.servers.length ≠ 0)
    (ha : m ≤ a / ctx.servers.length) :
    (∀ q, st.attempts q ≤ m * ctx.servers.length) ∧
    scheduleOne (some m) ctx.servers valid tmo a = .ok (a, .timedOut) := by
  refine ⟨?_, scheduleOne_timedOut_of_cycle hn ha⟩
  induction hr with
  | init => intro q; exact Nat.zero_le _
  | step hr hc hp ih => exact processRound_attempts_le hm ih hp

/-- Witness for claim C2 at the initial state of a concrete batch with
`max_attempts = 5` and one server, checked at attempt counter 5 (cycle 5). -/
theorem c2_attempts_bounded_witness :
    ((initState ⟨[7], 1, some 5, some 15, false⟩).attempts qA ≤ 5 * 1) ∧
    scheduleOne (some 5) [7] [7] (.ok 1) 5 = .ok (5, .timedOut) := by
  have h := @c2_attempts_bounded ⟨⟨[7], 1, some 5, some 15, false⟩, [7], false, [qA], 0⟩
    (fun _ => envTimeoutFx) 0 (initState ⟨[7], 1, some 5, some 15, false⟩) 5
    [7] (.ok 1) 5 rfl Reaches.init (by decide) (by decide)
  exact ⟨h.1 qA, h.2⟩

/-- Configuration of the concrete batch used for claim C4: one server, five
attempts, lifetime 100. -/
def cfgC4 : Config := ⟨[3], 1, some 5, some 100, false⟩

/-- The batch context of claim C4's concrete runs: the single question `qA`
over the single server 3. -/
def ctxC4 : BatchCtx := ⟨cfgC4, [3], false, [qA], 0⟩

/-- Counterexample to claim C4 as stated.  Round 1 dispatches `qA`'s query to
the only server, which returns a malformed response; the server is removed,
so `qA`'s valid-server set becomes empty during round 1 — but at the end of
round 1 the question has no outcome at all (it is not resolved in the round
during which its set became empty).  Only round 2's scheduling check resolves
it to `NoNameservers`, i.e. in a later round than the claim allows. -/
theorem c4_same_round_counterexample :
    (roundState ctxC4 envMalformedFx (.ok (initState cfgC4))).map
        (fun s => (dictFind? s.answers qA, s.validServers qA)) = .ok (none, []) ∧
    ((roundState ctxC4 envMalformedFx (.ok (initState cfgC4))).bind
        (fun s => roundState ctxC4 envMalformedFx (.ok s))).map
        (fun s => dictFind? s.answers qA) = .ok (some .noNameservers) :=
  ⟨rfl, rfl⟩

/-- Claim C4 (amended): a pending question whose valid-server set is empty at
a round's scheduling check is resolved to `NoUsableNameserver` in that round,
no query is dispatched for it in that round, and its valid-server set stays
empty (so the same holds in every later round: no query is ever issued for it
again).  A set emptied by removals during a round's response phase is
resolved this way at the next round's scheduling check, not in the round of
the removal — and if the loop exits before that check, the final fill-in
resolves the question to `TimedOut` instead. -/
theorem c4_empty_valid_resolves_at_check {ctx : BatchCtx} {env : RoundEnv}
    {st st' : SchedState} {qs : List (Question × Server × ℤ)} {q : Question}
    (hq : q ∈ ctx.queryTuples) (hv : st.validServers q = [])
    (hp : dictFind? st.answers q = none)
    (h : processRound ctx env st = .ok (st', qs)) :
    dictFind? st'.answers q = some .noNameservers ∧ (∀ e ∈ qs, e.1 ≠ q) ∧
    st'.validServers q = [] :=
  processRound_empty_valid hq hv hp h

/-- Witness for the amended claim C4 at a concrete state whose valid-server
set for `qA` is already empty. -/
theorem c4_empty_valid_resolves_at_check_witness :
    ∃ st' qs,
      processRound ctxC4 envMalformedFx ⟨[], fun _ => 1, fun _ => []⟩ = .ok (st', qs) ∧
      dictFind? st'.answers qA = some .noNameservers ∧ (∀ e ∈ qs, e.1 ≠ qA) ∧
      st'.validServers qA = [] := by
  have hobs : (processRound ctxC4 envMalformedFx ⟨[], fun _ => 1, fun _ => []⟩).map
      (fun p => dictFind? p.1.answers qA) = .ok (some .noNameservers) := rfl
  cases hpr : processRound ctxC4 envMalformedFx ⟨[], fun _ => 1, fun _ => []⟩ with
  | error e =>
    rw [hpr] at hobs
    simp [Except.map] at hobs
  | ok p =>
    obtain ⟨st', qs⟩ := p
    exact ⟨st', qs, rfl,
      @c4_empty_valid_resolves_at_check ctxC4 envMalformedFx ⟨[], fun _ => 1, fun _ => []⟩
        st' qs qA (by decide) rfl rfl hpr⟩

/-- The question and configuration of claim C5's concrete runs: two servers
`[0, 1]`, shuffle enabled. -/
def qC5 : Question := (2, 1, 1)

/-- Shuffle-enabled configuration for claim C5. -/
def cfgC5 : Config := ⟨[0, 1], 1, some 1, some 100, true⟩

/-- Counterexample to claim C5 as stated.  `random.shuffle` runs inside
`query_multiple` (lines 145-147), once per call, with whatever global RNG
state that call sees.  Two successive `query_multiple` calls on the same
configuration, whose shuffles draw the identity permutation and the reversing
permutation respectively (both reachable RNG outcomes for a two-element
list), dispatch attempt 0 of the same question to different servers — so the
server selected on attempt `n` is not deterministic across calls on the same
instance, and the ordering is not randomized once per `Resolver` instance. -/
theorem c5_per_instance_shuffle_counterexample :
    (queryMultiple cfgC5 false [qC5] id 0 (fun _ => envTimeoutFx) 1).map Prod.snd
      = .ok [(qC5, 0, 1)] ∧
    (queryMultiple cfgC5 false [qC5] List.reverse 0 (fun _ => envTimeoutFx) 1).map Prod.snd
      = .ok [(qC5, 1, 1)] :=
  ⟨rfl, rfl⟩

/-- Claim C5 (amended): the ordering is randomized once per `query_multiple`
call, not once per `Resolver` instance.  Within one call, every round uses
the single server order drawn at the start of the call (a permutation of the
configured list when `shuffle` is set), and the server enqueued for a
question is determined by its attempt counter as
`order[(attempt at enqueue) mod server_count]` — retries are not randomized
per attempt. -/
theorem c5_shuffle_once_per_call {cfg : Config}
    (perm : List Server → List Server) (hs : cfg.shuffle = true) :
    serverOrder cfg perm = perm cfg.servers ∧
    ∀ (ma : Option Nat) (valid : List Server) (tmo : Except PyError ℤ)
      (a a' : Nat) (s : Server) (t : ℤ),
      scheduleOne ma (serverOrder cfg perm) valid tmo a = .ok (a', .enqueue s t) →
      s = (serverOrder cfg perm).getD ((a' - 1) % (serverOrder cfg perm).length) 0 := by
  refine ⟨by simp [serverOrder, hs], fun ma valid tmo a a' s t h => ?_⟩
  exact (scheduleOne_enqueue h).2.1

/-- Witness for the amended claim C5: the reversed order `[1, 0]` drawn by
one call, and a concrete enqueue within that call selecting
`order[0 mod 2] = 1`. -/
theorem c5_shuffle_once_per_call_witness :
    serverOrder cfgC5 List.reverse = [1, 0] ∧
    (1 : Server) = (serverOrder cfgC5 List.reverse).getD
      ((1 - 1) % (serverOrder cfgC5 List.reverse).length) 0 := by
  have h := @c5_shuffle_once_per_call cfgC5 List.reverse rfl
  exact ⟨by rw [h.1]; rfl, h.2 (some 1) [1, 0] (.ok 1) 0 1 1 1 rfl⟩

/-- The `lifetime = None` configuration of claim C6's crashing run. -/
def cfgC6 : Config := ⟨[3], 1, some 5, none, false⟩

/-- Claim C6 (code-bug evaluation): when a lifetime is configured, the
per-query timeout of line 170 equals
`min(per_attempt_timeout, max(0, (start + lifetime) - now))`, exactly as the
claim states; but when `lifetime` is `None`, the same line raises `TypeError`
(`start + None` in Python 2) the moment a query is about to be enqueued —
a concrete batch under a `lifetime = None`, `max_attempts = 5` resolver
crashes instead of issuing the query with the per-attempt timeout. -/
theorem c6_timeout_formula_and_none_crash (cfg : Config) (start now lt : ℤ)
    (h : cfg.lifetime = some lt) :
    computeTimeout cfg start now = .ok (min cfg.timeout (max 0 ((start + lt) - now))) ∧
    queryMultiple cfgC6 false [qA] id 0 (fun _ => envTimeoutFx) 5 = .error .typeError := by
  constructor
  · simp [computeTimeout, h, max_comm]
  · rfl

/-- Witness for claim C6 at the concrete configuration `cfgC4`
(`lifetime = 100`). -/
theorem c6_timeout_formula_and_none_crash_witness :
    computeTimeout cfgC4 0 0 = .ok (min cfgC4.timeout (max 0 ((0 + 100) - 0))) ∧
    queryMultiple cfgC6 false [qA] id 0 (fun _ => envTimeoutFx) 5 = .error .typeError :=
  c6_timeout_formula_and_none_crash cfgC4 0 0 100 rfl

/-- Claim C7: for a completed exchange that is not a complete, valid
response: a true timeout or network error (no message, error class timeout or
network) leaves the whole scheduler state of the step untouched — the server
stays in the question's valid-server set and remains eligible for retry;
any other outcome (some message received, or another error class) removes the
server from exactly that question's valid-server set, leaving every other
question's set unchanged.  Moreover a query is only ever enqueued to a server
currently in the question's valid-server set, and a round never adds servers
to any valid-server set — so a removed server is never queried again for that
question. -/
theorem c7_server_validity_transitions (allowNA : Bool)
    (oracle : Question → Server → QueryResponse) (qt : Question) (srv : Server)
    (t : ℤ) (ans : List (Question × Outcome)) (valid : Question → List Server)
    (h0 : ((oracle qt srv).isComplete && (oracle qt srv).isValid) = false) :
    ((oracle qt srv).message = none →
      ((oracle qt srv).error = .timeout ∨ (oracle qt srv).error = .networkError) →
      processResponses allowNA oracle [(qt, srv, t)] ans valid = .ok (ans, valid)) ∧
    ((oracle qt srv).message.isSome = true ∨
        ((oracle qt srv).error ≠ .timeout ∧ (oracle qt srv).error ≠ .networkError) →
      processResponses allowNA oracle [(qt, srv, t)] ans valid
          = .ok (ans, updFn valid qt ((valid qt).erase srv)) ∧
        updFn valid qt ((valid qt).erase srv) qt = (valid qt).erase srv ∧
        (∀ q', q' ≠ qt → updFn valid qt ((valid qt).erase srv) q' = valid q')) ∧
    (∀ (ma : Option Nat) (servers v : List Server) (tmo : Except PyError ℤ)
        (a a' : Nat) (s : Server) (u : ℤ),
      scheduleOne ma servers v tmo a = .ok (a', .enqueue s u) → s ∈ v) ∧
    (∀ (ctx : BatchCtx) (env : RoundEnv) (st st' : SchedState)
        (qs : List (Question × Server × ℤ)),
      processRound ctx env st = .ok (st', qs) →
      ∀ q x, x ∈ st'.validServers q → x ∈ st.validServers q) := by
  refine ⟨fun hmsg herr => ?_, fun hcase => ?_, ?_, ?_⟩
  · rcases herr with herr | herr <;>
      simp [processResponses, h0, hmsg, herr]
  · have hcond : ((oracle qt srv).message.isSome ||
        !((oracle qt srv).error == RespError.timeout ||
          (oracle qt srv).error == RespError.networkError)) = true := by
      rcases hcase with hm | ⟨h1, h2⟩
      · simp [hm]
      · cases herr : (oracle qt srv).error
        · exact absurd herr h1
        · exact absurd herr h2
        · simp [herr]
    refine ⟨?_, by simp [updFn], fun q' hq' => by simp [updFn, hq']⟩
    show processResponses allowNA oracle [(qt, srv, t)] ans valid = _
    simp only [processResponses]
    rw [if_neg (by simp [h0]), if_pos hcond]
  · exact fun ma servers v tmo a a' s u h => (scheduleOne_enqueue h).1
  · exact fun ctx env st st' qs h => processRound_valid_subset h

/-- Witness for claim C7: a malformed response (message present, incomplete)
for `qA` from server 3 removes server 3 from `qA`'s valid-server set
`[3, 4]`, leaving `[4]`. -/
theorem c7_server_validity_transitions_witness :
    processResponses false (fun _ _ => respMalformedFx) [(qA, 3, 1)] []
        (fun _ => [3, 4])
      = .ok ([], updFn (fun _ => [3, 4]) qA (([3, 4] : List Server).erase 3)) ∧
    updFn (fun _ => [3, 4]) qA (([3, 4] : List Server).erase 3) qA = [4] := by
  have h := c7_server_validity_transitions false (fun _ _ => respMalformedFx) qA 3 1 []
    (fun _ => [3, 4]) rfl
  obtain ⟨hres, hat, -⟩ := h.2.1 (Or.inl rfl)
  exact ⟨hres, hat.trans rfl⟩

theorem runLoop_done {ctx : BatchCtx} {envs : Nat → RoundEnv} {st : SchedState}
    {log : List (Question × Server × ℤ)} (fuel k : Nat)
    (h : pendingOf ctx.queryTuples st.answers = []) :
    runLoop ctx envs fuel k st log = .ok (some st.answers, log) := by
  have hcond : loopCond ctx.cfg ctx.start (pendingOf ctx.queryTuples st.answers)
      ((envs k).tCheck) = false := by
    simp [loopCond, h]
  cases fuel with
  | zero =>
    simp only [runLoop]
    rw [if_neg (by simp [hcond]), h]
    rfl
  | succ n =>
    simp only [runLoop]
    rw [if_neg (by simp [hcond]), h]
    rfl

/-- Claim C10: for a resolver with `max_attempts = None` and a lifetime set —
a configuration the constructor accepts — every question of every batch is
resolved to the `Timeout` outcome at the first round's eligibility check,
before any query is dispatched to any server (the run's dispatch log is
empty), because the Python 2 comparison `cycle_num >= None` is true for every
attempt count. -/
theorem c10_none_max_attempts_all_timeout (cfg : Config) (allowNA : Bool)
    (input : List Question) (perm : List Server → List Server) (start : ℤ)
    (envs : Nat → RoundEnv) (fuel : Nat)
    (hma : cfg.maxAttempts = none) (hns : cfg.servers ≠ [])
    (hsrv : (serverOrder cfg perm).length ≠ 0) (hfuel : 1 ≤ fuel) :
    ∃ answers,
      queryMultiple cfg allowNA input perm start envs fuel = .ok (some answers, []) ∧
      ∀ q ∈ input, dictFind? answers q = some .timedOut := by
  obtain ⟨n, rfl⟩ : ∃ n, fuel = n + 1 := ⟨fuel - 1, by omega⟩
  by_cases hlc : loopCond cfg start (pendingOf input.dedup []) (envs 0).tCheck = true
  · -- the guard holds: round 0 resolves every pending question to Timeout
    have hvne : ∀ q ∈ pendingOf input.dedup [],
        ((fun _ => cfg.servers.dedup : Question → List Server) q) ≠ [] :=
      fun q _ => by simpa [List.dedup_eq_nil] using hns
    obtain ⟨ans', att', hrun, hbind⟩ :=
      @scheduleRound_none_ma (serverOrder cfg perm) (fun _ => cfg.servers.dedup)
        (computeTimeout cfg start (envs 0).tNow) hsrv
        (pendingOf input.dedup []) [] (fun _ => 0) [] hvne
    have hpr : processRound ⟨cfg, serverOrder cfg perm, allowNA, input.dedup, start⟩
        (envs 0) (initState cfg)
        = .ok (⟨ans', att', fun _ => cfg.servers.dedup⟩, []) := by
      unfold processRound
      simp only [initState]
      rw [hma, hrun]
      rfl
    have hpend : pendingOf input.dedup ans' = [] :=
      pendingOf_eq_nil fun q hq =>
        ⟨.timedOut, hbind q (Or.inl (by rw [pendingOf_nil]; exact hq))⟩
    refine ⟨ans', ?_, fun q hq => hbind q (Or.inl ?_)⟩
    · show runLoop ⟨cfg, serverOrder cfg perm, allowNA, input.dedup, start⟩ envs
        (n + 1) 0 (initState cfg) [] = .ok (some ans', [])
      simp only [runLoop]
      rw [show (initState cfg).answers = ([] : List (Question × Outcome)) from rfl,
        if_pos hlc, hpr]
      exact runLoop_done n 1 hpend
    · rw [pendingOf_nil]
      exact List.mem_dedup.mpr hq
  · -- the guard fails at once: the final fill-in resolves everything
    refine ⟨finalFill (pendingOf input.dedup []) [], ?_, fun q hq => ?_⟩
    · show runLoop ⟨cfg, serverOrder cfg perm, allowNA, input.dedup, start⟩ envs
        (n + 1) 0 (initState cfg) [] = _
      simp only [runLoop]
      rw [show (initState cfg).answers = ([] : List (Question × Outcome)) from rfl,
        if_neg hlc]
    · exact finalFill_timedOut _ _ (Or.inl (by rw [pendingOf_nil]; exact List.mem_dedup.mpr hq))

/-- Witness for claim C10: a concrete `max_attempts = None` run resolves its
question to `Timeout` with an empty dispatch log. -/
theorem c10_none_max_attempts_all_timeout_witness :
    ∃ answers,
      queryMultiple ⟨[3], 1, none, some 100, false⟩ false [qA] id 0
        (fun _ => envTimeoutFx) 1 = .ok (some answers, []) ∧
      ∀ q ∈ [qA], dictFind? answers q = some .timedOut :=
  c10_none_max_attempts_all_timeout ⟨[3], 1, none, some 100, false⟩ false [qA] id 0
    (fun _ => envTimeoutFx) 1 rfl (by decide) (by decide) (by decide)
